import Mathlib

set_option autoImplicit false

namespace Web3comm

/-! # Part I: `core/coreunix/add_test.go`

The test file wraps the node's block store in `testBlockstore`, which inspects
every block put to it for no-copy position information, runs one add of a
5 MiB file, and compares the two counters with its expected values.  The
adder itself (`NewAdder`, `AddAllAndPin`), the chunker and the layout builder
live in other files; they are modelled from the specification and marked as
such. -/

/-- A byte of file content. -/
abbrev Byte := Fin 256

/-- Modelled from the spec: the record `PosInfo` of section 3,
`{fullPath, offset, size}`, attached in no-copy mode to a leaf.  The type
declaration (package `go-ipfs-posinfo`) is missing from the sources; the test
reads the fields `FullPath` and `Offset`. -/
structure PosInfo where
  FullPath : String
  Offset : Nat
  Size : Nat
  deriving DecidableEq, Repr

/-- Modelled from the spec: a content identifier (section 3, "hash function
tag + digest + encoding tag").  The hash itself is a parameter of the model. -/
structure Cid where
  encodingTag : Nat
  digest : List Byte
  deriving DecidableEq, Repr

/-- Modelled from the spec: a child link `{name, childID, cumulativeSize}` of
a structured node (section 3). -/
structure Link where
  Name : String
  ChildID : Cid
  CumulativeSize : Nat
  deriving DecidableEq, Repr

/-- Modelled from the spec: a `DAGNode` of section 3, either a raw leaf whose
payload is exactly a chunk's bytes, or a structured node with an ordered list
of child links and an optional inline payload. -/
inductive DAGNode where
  | rawLeaf (data : List Byte)
  | structured (links : List Link) (data : List Byte)
  deriving DecidableEq, Repr

/-- A value of the interface `blocks.Block` as the block store receives it:
either a plain node, or a `*pi.FilestoreNode`, which is a node together with
its `PosInfo` (the `PosInfo` is "never part of the hashed payload").  The type
assertion `block.(*pi.FilestoreNode)` of `CheckForPosInfo` succeeds exactly on
the second constructor. -/
inductive Block where
  | node (n : DAGNode)
  | filestoreNode (n : DAGNode) (posInfo : PosInfo)
  deriving DecidableEq, Repr

/-- Go's `int` on a 64-bit platform: the result of an arithmetic operation
wraps into `[-2^63, 2^63)`. -/
def goInt (x : Int) : Int := (x + 2 ^ 63) % 2 ^ 64 - 2 ^ 63

/-- The struct `testBlockstore` (add_test.go, lines 95-101).  The embedded
`blockstore.GCBlockstore` is an external collaborator; it is represented by
the sequence of blocks it has accepted (the test backs it with an in-memory
map datastore, whose puts do not fail).  The field `t` is represented by the
`Except` result of the methods: `t.Fatal` ends the run with the message. -/
structure testBlockstore where
  GCBlockstore : List Block
  expectedPath : String
  countAtOffsetZero : Int
  countAtOffsetNonZero : Int
  deriving DecidableEq, Repr

/-- The method `testBlockstore.CheckForPosInfo` (add_test.go, lines 115-128). -/
def testBlockstore.CheckForPosInfo (bs : testBlockstore) (block : Block) :
    Except String testBlockstore :=
  match block with
  | Block.filestoreNode _ posInfo =>
    if posInfo.FullPath ≠ bs.expectedPath then
      Except.error "PosInfo does not have the expected path"
    else if posInfo.Offset = 0 then
      Except.ok { bs with countAtOffsetZero := goInt (bs.countAtOffsetZero + 1) }
    else
      Except.ok { bs with countAtOffsetNonZero := goInt (bs.countAtOffsetNonZero + 1) }
  | Block.node _ => Except.ok bs

/-- The method `testBlockstore.Put` (add_test.go, lines 103-106): check the
block, then hand it to the embedded store. -/
def testBlockstore.Put (bs : testBlockstore) (block : Block) :
    Except String testBlockstore :=
  match bs.CheckForPosInfo block with
  | Except.error e => Except.error e
  | Except.ok bs1 => Except.ok { bs1 with GCBlockstore := bs1.GCBlockstore ++ [block] }

/-- A sequence of calls of `testBlockstore.Put`, one for each block in turn. -/
def testBlockstore.putEach (bs : testBlockstore) : List Block → Except String testBlockstore
  | [] => Except.ok bs
  | blk :: rest =>
    match bs.Put blk with
    | Except.error e => Except.error e
    | Except.ok bs1 => testBlockstore.putEach bs1 rest

/-- The loop of `testBlockstore.PutMany` (add_test.go, lines 109-111). -/
def testBlockstore.checkAll (bs : testBlockstore) :
    List Block → Except String testBlockstore
  | [] => Except.ok bs
  | blk :: rest =>
    match bs.CheckForPosInfo blk with
    | Except.error e => Except.error e
    | Except.ok bs1 => testBlockstore.checkAll bs1 rest

/-- The method `testBlockstore.PutMany` (add_test.go, lines 108-113): check
every block of the batch, then hand the batch to the embedded store. -/
def testBlockstore.PutMany (bs : testBlockstore) (blocks : List Block) :
    Except String testBlockstore :=
  match bs.checkAll blocks with
  | Except.error e => Except.error e
  | Except.ok bs1 => Except.ok { bs1 with GCBlockstore := bs1.GCBlockstore ++ blocks }

/-! ## The adder, modelled from the specification -/

/-- Modelled from the spec: the fixed-size strategy of the Chunker (section
4.1).  The stream is cut into consecutive ranges of `c` bytes, the last one
possibly shorter, "covering the entire stream with no gaps or overlaps,
terminating at end-of-stream".  The first argument is the recursion budget. -/
def splitFixed (c : Nat) : Nat → List Byte → List (List Byte)
  | 0, _ => []
  | fuel + 1, data =>
    if data = [] then []
    else data.take c :: splitFixed c fuel (data.drop c)

/-- Modelled from the spec: the fixed-size Chunker run on a whole stream; one
unit of budget per byte is enough for every positive chunk size. -/
def chunkFixed (c : Nat) (data : List Byte) : List (List Byte) :=
  splitFixed c data.length data

/-- Modelled from the spec: the Filestore Adapter (section 4.5) on raw leaves.
Each chunk becomes a raw leaf recorded with a `PosInfo` whose offset "equals
the sum of lengths of all previously emitted chunks for that file" and whose
`fullPath` "is constant for all chunks of one file"; the running offset is the
first argument. -/
def noCopyLeaves (fullPath : String) : Nat → List (List Byte) → List Block
  | _, [] => []
  | offset, chunk :: rest =>
    Block.filestoreNode (DAGNode.rawLeaf chunk)
        { FullPath := fullPath, Offset := offset, Size := chunk.length }
      :: noCopyLeaves fullPath (offset + chunk.length) rest

/-- Modelled from the spec: the Block Codec's `encodeLeaf` (section 4.2).
"Raw-leaf mode produces a block whose payload is exactly `chunkBytes`";
"non-raw mode wraps the bytes in a minimal structured node with zero links". -/
def encodeLeaf (chunkBytes : List Byte) (rawLeaves : Bool) : DAGNode :=
  if rawLeaves then DAGNode.rawLeaf chunkBytes
  else DAGNode.structured [] chunkBytes

/-- The node of a block, without its position information. -/
def Block.toNode : Block → DAGNode
  | Block.node n => n
  | Block.filestoreNode n _ => n

/-- The payload bytes of a node. -/
def DAGNode.payload : DAGNode → List Byte
  | DAGNode.rawLeaf data => data
  | DAGNode.structured _ data => data

/-- Modelled from the spec: the configuration of the Adder (section 4.6) that
the test sets: raw-leaves, no-copy, progress reporting, and the target size of
the fixed-size chunker. -/
structure Adder where
  Progress : Bool
  RawLeaves : Bool
  NoCopy : Bool
  ChunkSize : Nat
  deriving DecidableEq, Repr

/-- Modelled from the spec: the default target size of the fixed-size chunker,
256 KiB.  The constant (package `go-ipfs-chunker`) is missing from the sources;
with it the 5 MiB input of the test has 20 chunks, the "1 + 19" of section 8. -/
def DefaultBlockSize : Nat := 1024 * 256

/-- Modelled from the spec: `NewAdder`, a session with every option off and the
default chunker. -/
def NewAdder : Adder :=
  { Progress := false, RawLeaves := false, NoCopy := false, ChunkSize := DefaultBlockSize }

/-- Modelled from the spec: the leaf blocks of a sequence of chunks, in stream
order, whatever chunker cut them.  With no-copy and raw leaves each leaf
carries its `PosInfo` ("the first raw leaf itself carries pos-info", section
8.5).  A leaf that is not raw is a structured node and carries none: the test
expects both counters to stay 0 when raw leaves are off (add_test.go, lines
72-77). -/
def leafBlocks (noCopy rawLeaves : Bool) (fullPath : String) (chunks : List (List Byte)) :
    List Block :=
  if noCopy && rawLeaves then noCopyLeaves fullPath 0 chunks
  else chunks.map (fun chunk => Block.node (encodeLeaf chunk rawLeaves))

/-- Modelled from the spec: the leaf blocks of one file, in stream order: the
leaf blocks of the chunks the adder's fixed-size chunker cuts. -/
def Adder.leaves (adder : Adder) (fullPath : String) (data : List Byte) : List Block :=
  leafBlocks adder.NoCopy adder.RawLeaves fullPath (chunkFixed adder.ChunkSize data)

/-- Modelled from the spec: a Layout Builder (section 4.3) as seen by the block
store: from the ordered leaves, each with its byte size, the structured nodes
it creates.  Balanced and trickle layouts are both of this shape. -/
abbrev Layout := List (DAGNode × Nat) → List DAGNode

/-- Modelled from the spec: one structured parent over a run of children, with
"per link, the cumulative byte size of everything reachable through that link". -/
def mkParent (cidOf : DAGNode → Cid) (children : List (DAGNode × Nat)) : DAGNode × Nat :=
  (DAGNode.structured
      (children.map (fun child =>
        { Name := "", ChildID := cidOf child.1, CumulativeSize := child.2 })) [],
    (children.map Prod.snd).sum)

/-- Modelled from the spec: one level of the balanced layout, grouping the
nodes of the level below "into fixed-arity structured nodes"; only the last
group may be smaller. -/
def groupLevel (cidOf : DAGNode → Cid) (fanout : Nat) :
    Nat → List (DAGNode × Nat) → List (DAGNode × Nat)
  | 0, _ => []
  | fuel + 1, nodes =>
    if nodes = [] then []
    else mkParent cidOf (nodes.take fanout) :: groupLevel cidOf fanout fuel (nodes.drop fanout)

/-- Modelled from the spec: the balanced layout (section 4.3), "bottom-up until
a single root remains".  A single node is its own root and gets no wrapping
parent.  The result lists the structured nodes created, lowest level first. -/
def balancedLevels (cidOf : DAGNode → Cid) (fanout : Nat) :
    Nat → List (DAGNode × Nat) → List DAGNode
  | 0, _ => []
  | fuel + 1, nodes =>
    if nodes.length ≤ 1 then []
    else
      let parents := groupLevel cidOf fanout nodes.length nodes
      parents.map Prod.fst ++ balancedLevels cidOf fanout fuel parents

/-- Modelled from the spec: the balanced layout as a `Layout`. -/
def balancedLayout (cidOf : DAGNode → Cid) (fanout : Nat) : Layout :=
  fun leaves => balancedLevels cidOf fanout leaves.length leaves

/-- Modelled from the spec: the blocks one add of a single file puts to the
block store: its leaves, then the structured nodes of the layout.  "A file
with zero chunks maps to a single empty leaf." -/
def Adder.addFile (adder : Adder) (layout : Layout) (fullPath : String)
    (data : List Byte) : List Block :=
  let leaves := adder.leaves fullPath data
  if leaves = [] then [Block.node (encodeLeaf [] adder.RawLeaves)]
  else
    leaves ++
      (layout (leaves.map (fun b => (b.toNode, b.toNode.payload.length)))).map Block.node

/-- Modelled from the spec: `AddAllAndPin` on a single file, as the block store
sees it: every produced block is put to the store.  The blocks are put as one
batch; putting them one at a time leaves the store in the same state. -/
def Adder.AddAllAndPin (adder : Adder) (layout : Layout) (bs : testBlockstore)
    (fullPath : String) (data : List Byte) : Except String testBlockstore :=
  bs.PutMany (adder.addFile layout fullPath data)

/-! ## The test -/

/-- The expected counters of `testAddWPosInfo` (add_test.go, lines 72-77):
`exp` and `nonOffZero` start at 0 and are set to 1 and 19 only when
`rawLeaves` is on. -/
def expectedCounts (rawLeaves : Bool) : Int × Int :=
  let exp : Int := 0
  let nonOffZero : Int := 0
  if rawLeaves then (1, 19) else (exp, nonOffZero)

/-- The two final checks of `testAddWPosInfo` (add_test.go, lines 78-84); the
messages are those of `t.Fatalf` with the numbers left out. -/
def checkCounts (rawLeaves : Bool) (bs : testBlockstore) : Except String Unit :=
  if bs.countAtOffsetZero ≠ (expectedCounts rawLeaves).1 then
    Except.error "expected blocks with an offset at zero (one root and one leaf)"
  else if bs.countAtOffsetNonZero ≠ (expectedCounts rawLeaves).2 then
    Except.error "expected blocks with an offset > 0"
  else Except.ok ()

/-- The store built at add_test.go, line 43: empty, both counters at their zero
value, expecting the given path. -/
def newTestBlockstore (expectedPath : String) : testBlockstore :=
  { GCBlockstore := [], expectedPath := expectedPath,
    countAtOffsetZero := 0, countAtOffsetNonZero := 0 }

/-- The body of `testAddWPosInfo` (add_test.go, lines 29-85).  `fooPath` is the
value of `filepath.Join(os.TempDir(), "foo.txt")`, used both as the expected
path of the store and as the path of the file; `data` is the content of the
file (the test fills 5 MiB from a seeded generator); `layout` is the adder's
layout builder.  The result is the store after the add when both final checks
pass. -/
def testAddWPosInfo (layout : Layout) (fooPath : String) (data : List Byte)
    (rawLeaves : Bool) : Except String testBlockstore :=
  let bs : testBlockstore := newTestBlockstore fooPath
  let adder : Adder := { NewAdder with Progress := true, RawLeaves := rawLeaves, NoCopy := true }
  match adder.AddAllAndPin layout bs fooPath data with
  | Except.error e => Except.error e
  | Except.ok bs1 =>
    match checkCounts rawLeaves bs1 with
    | Except.error e => Except.error e
    | Except.ok _ => Except.ok bs1

/-- The blocks of a list that carry a `PosInfo`. -/
def posInfoBlocks (blocks : List Block) : List Block :=
  blocks.filter (fun b => match b with
    | Block.filestoreNode _ _ => true
    | Block.node _ => false)

/-- The recorded offsets of the blocks that carry a `PosInfo`, in order. -/
def posOffsets : List Block → List Nat
  | [] => []
  | Block.filestoreNode _ posInfo :: rest => posInfo.Offset :: posOffsets rest
  | Block.node _ :: rest => posOffsets rest

/-! # Part II: `core/corehttp/gateway_handler_block.go`

`serveRawBlock` fetches a block through the core API, reads it whole, and hands
it to `ServeContent` after setting the response headers.  The collaborators it
calls (`webError`, `setContentDispositionHeader`, `addCacheControlHeaders`,
`ServeContent`, the core API and `cid.Cid.String`) live in other files and
packages.  The response writer is represented by the sequence of calls made on
it, in order; what a collaborator returns is a parameter of the handler. -/

/-- A value of `time.Time`. -/
abbrev Time := Int

/-- The constant `http.StatusInternalServerError`. -/
def StatusInternalServerError : Nat := 500

/-- A value of `context.Context`, of which the handler only passes it on. -/
structure Context where
  id : Nat
  deriving DecidableEq, Repr

/-- A value of `*http.Request`: method, URL and header lines. -/
structure Request where
  Method : String
  URL : String
  Header : List (String × String)
  deriving DecidableEq, Repr

/-- A value of `ipath.Resolved`: the path and the content identifier it resolves
to, returned by the method `Cid()`. -/
structure ResolvedPath where
  path : String
  Cid : Cid
  deriving DecidableEq, Repr

/-- A value of `ipath.Path`. -/
structure ContentPath where
  path : String
  deriving DecidableEq, Repr

/-- A value of `io.Reader`: the bytes it yields, and the error, if any, it ends
with in place of the end of the stream. -/
structure Reader where
  data : List Byte
  err : Option String
  deriving DecidableEq, Repr

/-- The function `ioutil.ReadAll`: it reads until the end of the stream or an
error and returns the data it read with that error (`nil` at the end). -/
def ReadAll (r : Reader) : List Byte × Option String := (r.data, r.err)

/-- The function `bytes.NewReader`: a reader over a byte slice, which yields
the slice and then ends. -/
def bytesNewReader (b : List Byte) : Reader := { data := b, err := none }

/-- A call made on the response `w`, with its arguments: one constructor for
each collaborator of `serveRawBlock` that writes to `w`, and one for
`w.Header().Set`. -/
inductive Call where
  | webError (message : String) (err : String) (code : Nat)
  | setContentDispositionHeader (filename : String) (disposition : String)
  | addCacheControlHeaders (r : Request) (contentPath : ContentPath) (fileCid : Cid)
  | headerSet (key : String) (value : String)
  | ServeContent (r : Request) (name : String) (modtime : Time) (content : Reader)
  deriving DecidableEq, Repr

/-- The response `w http.ResponseWriter` as the sequence of calls made on it. -/
abbrev ResponseWriter := List Call

/-- The struct `gatewayHandler`, as far as `serveRawBlock` uses it, together
with what the collaborators return: `BlockGet` is `i.api.Block().Get`,
`cidString` is the method `String` of `cid.Cid`, and `cacheModtime` is the
value `addCacheControlHeaders` returns (it may depend on the response so far,
the request, the content path and the identifier). -/
structure gatewayHandler where
  BlockGet : Context → ResolvedPath → Except String Reader
  cidString : Cid → String
  cacheModtime : ResponseWriter → Request → ContentPath → Cid → Time

/-- The method `gatewayHandler.serveRawBlock` (gateway_handler_block.go, lines
14-40).  The result is the response after the call. -/
def gatewayHandler.serveRawBlock (i : gatewayHandler) (ctx : Context) (w : ResponseWriter)
    (r : Request) (resolvedPath : ResolvedPath) (contentPath : ContentPath)
    (_begin : Time) : ResponseWriter :=
  let blockCid := resolvedPath.Cid
  match i.BlockGet ctx resolvedPath with
  | Except.error err =>
    w ++ [Call.webError ("ipfs block get " ++ i.cidString blockCid) err
      StatusInternalServerError]
  | Except.ok blockReader =>
    match ReadAll blockReader with
    | (_, some err) =>
      w ++ [Call.webError ("ipfs block get " ++ i.cidString blockCid) err
        StatusInternalServerError]
    | (block, none) =>
      let content := bytesNewReader block
      -- Set Content-Disposition
      let name := i.cidString blockCid ++ ".bin"
      let w1 := w ++ [Call.setContentDispositionHeader name "attachment"]
      -- Set remaining headers
      let modtime := i.cacheModtime w1 r contentPath blockCid
      let w2 := w1 ++ [Call.addCacheControlHeaders r contentPath blockCid]
      let w3 := w2 ++ [Call.headerSet "Content-Type" "application/vnd.ipld.raw"]
      let w4 := w3 ++ [Call.headerSet "X-Content-Type-Options" "nosniff"]
      w4 ++ [Call.ServeContent r name modtime content]

/-- The calls of a response that are calls of `webError`. -/
def webErrorCalls (w : ResponseWriter) : List Call :=
  w.filter (fun c => match c with
    | Call.webError _ _ _ => true
    | _ => false)

/-- The bytes of the readers handed to `ServeContent`, one entry for each call,
in order. -/
def servedContents : ResponseWriter → List (List Byte)
  | [] => []
  | Call.ServeContent _ _ _ content :: rest => (ReadAll content).1 :: servedContents rest
  | _ :: rest => servedContents rest

/-- A handler for the examples: one block is stored, one path yields a reader
that breaks, every other fetch fails. -/
def exampleHandler : gatewayHandler :=
  { BlockGet := fun _ p =>
      if p.path = "/ipfs/bafkqaaa" then Except.ok { data := [104, 105], err := none }
      else if p.path = "/ipfs/broken" then Except.ok { data := [104], err := some "unexpected EOF" }
      else Except.error "block not found"
    cidString := fun c => if c.digest = [] then "bafkqaaa" else "bafkother"
    cacheModtime := fun _ _ _ _ => 1 }

/-! # Part III: `core/commands/root.go`

The file declares the root command and its read-only variant as package
variables holding pointers to `cmds.Command` structs, two tables of
subcommands, and an `init` function that fills in the read-only variants.  The
embedding keeps the pointer structure explicit: a state maps each command
pointer to the struct it points to and each map reference to the content of
the map.  The library `go-ipfs-cmds` and the commands defined in other files
are parameters. -/

/-- A value of the interface `cmds.Option`: the result of one of the library's
constructors on the strings passed to it, or an option defined in another
package, by its qualified name. -/
inductive CmdOption where
  | StringOption (names : List String)
  | BoolOption (names : List String)
  | defined (qualifiedName : String)
  deriving DecidableEq, Repr

/-- The struct `cmds.HelpText`: the three fields the file sets, and the others
(among them the descriptions `ProcessHelp` works on) as pairs of field name and
value. -/
structure HelpText where
  Tagline : String
  Synopsis : String
  Subcommands : String
  others : List (String × String)
  deriving DecidableEq, Repr

/-- A pointer to a `cmds.Command`.  The first six are the structs allocated by
the composite literals of this file: the four package variables `Root`,
`RootRO`, `RefsROCmd`, `VersionROCmd`, and the two unnamed values of
`rootROSubcommands`.  The next are the pointers held by the variables of other
files and packages that the tables name.  `reached` stands for any further
command that those reach.  Distinct constructors are distinct addresses, as
distinct allocations are. -/
inductive CmdPtr where
  | Root | RootRO | RefsROCmd | VersionROCmd
  | rootROName | rootROObject
  | PubsubCmd | StatsCmd | BootstrapCmd | ConfigCmd | DhtCmd | DNSCmd | KeyCmd
  | NameCmd | ObjectCmd | PingCmd | P2PCmd | ResolveCmd | SwarmCmd | VersionCmd
  | IpnsCmd | ObjectDataCmd | ObjectLinksCmd | ObjectGetCmd | ObjectStatCmd
  | reached (n : Nat)
  deriving DecidableEq, Repr

/-- A reference to a `map[string]*cmds.Command`.  The first five are the maps
made by the literals of this file: the two tables, the two maps of the unnamed
values of `rootROSubcommands`, and the empty map made in `init` (line 142).
`defined` stands for a map made in another file or package. -/
inductive MapRef where
  | rootSubcommands | rootROSubcommands
  | rootRONameSubcommands | rootROObjectSubcommands
  | versionROSubcommands
  | defined (n : Nat)
  deriving DecidableEq, Repr

/-- The struct `cmds.Command`: the three fields the file names, and the others
(`Run`, `Type`, `Encoders` and so on) as pairs of field name and value.  The
field `Subcommands` holds a map reference, or `none` for the nil map. -/
structure Command where
  Options : List CmdOption
  Helptext : HelpText
  Subcommands : Option MapRef
  others : List (String × String)
  deriving DecidableEq, Repr

/-- The zero value `cmds.Command{}`. -/
def Command.zero : Command :=
  { Options := [],
    Helptext := { Tagline := "", Synopsis := "", Subcommands := "", others := [] },
    Subcommands := none,
    others := [] }

/-- A command defined in another file or package: as `Command`, with a
`Subcommands` map that is itself made elsewhere. -/
structure DefinedCommand where
  Options : List CmdOption
  Helptext : HelpText
  Subcommands : Option Nat
  others : List (String × String)
  deriving DecidableEq, Repr

/-- The struct a command defined elsewhere points to. -/
def DefinedCommand.toCommand (c : DefinedCommand) : Command :=
  { Options := c.Options,
    Helptext := c.Helptext,
    Subcommands := c.Subcommands.map MapRef.defined,
    others := c.others }

/-- What the file takes from elsewhere: the two option names `cmds.OptLongHelp`
and `cmds.OptShortHelp`; the method `ProcessHelp`, as the change it makes to
the struct of its receiver (when `init` calls it on `Root`, the `Subcommands`
of `Root` are still nil, so no other command is in reach); the commands that
other files define, and the maps those made. -/
structure Library where
  OptLongHelp : String
  OptShortHelp : String
  ProcessHelp : Command → Command
  command : CmdPtr → DefinedCommand
  subcommands : Nat → String → Option CmdPtr

/-- The state of the package: the struct behind each command pointer and the
content of each map. -/
structure PackageState where
  cmd : CmdPtr → Command
  subcommands : MapRef → String → Option CmdPtr

/-- The names of the options of the root command (root.go, lines 18-23). -/
def ConfigOption : String := "config"

/-- See `ConfigOption`. -/
def DebugOption : String := "debug"

/-- See `ConfigOption`. -/
def OfflineOption : String := "offline"

/-- See `ConfigOption`. -/
def ApiOption : String := "api"

/-- The composite literal of `Root` (root.go, lines 25-86). -/
def RootLiteral (L : Library) : Command :=
  { Helptext :=
      { Tagline := "Global p2p merkle-dag filesystem.",
        Synopsis := "ipfs [--config=<config> | -c] [--debug | -D] [--help] [-h] [--api=<api>] [--offline] [--cid-base=<base>] [--upgrade-cidv0-in-output] [--encoding=<encoding> | --enc] [--timeout=<timeout>] <command> ...",
        Subcommands := "
BASIC COMMANDS
  init          Initialize local IPFS configuration
  refs <ref>    List hashes of links from an object

ADVANCED COMMANDS
  daemon        Start a long-running daemon process
  resolve       Resolve any type of name
  name          Publish and resolve IPNS names
  key           Create and list IPNS name keypairs
  dns           Resolve DNS links
  stats         Various operational stats
  p2p           Libp2p stream mounting

NETWORK COMMANDS
  bootstrap     Add or remove bootstrap peers
  swarm         Manage connections to the p2p network
  dht           Query the DHT for values or peers
  ping          Measure the latency of a connection
  pubsub        Send and receive messages via pubsub

TOOL COMMANDS
  config        Manage configuration
  version       Show IPFS version information

Use 'ipfs <command> --help' to learn more about each command.

ipfs uses a repository in the local file system. By default, the repo is
located at ~/.ipfs. To change the repo location, set the $IPFS_PATH
environment variable:

  export IPFS_PATH=/path/to/ipfsrepo

EXIT STATUS

The CLI will exit with one of the following values:

0     Successful execution.
1     Failed executions.
",
        others := [] },
    Options :=
      [ CmdOption.StringOption [ConfigOption, "c", "Path to the configuration file to use."],
        CmdOption.BoolOption [DebugOption, "D", "Operate in debug mode."],
        CmdOption.BoolOption [L.OptLongHelp, "Show the full command help text."],
        CmdOption.BoolOption [L.OptShortHelp, "Show a short version of the command help text."],
        CmdOption.BoolOption [OfflineOption, "Run the command offline."],
        CmdOption.StringOption
          [ApiOption, "Use a specific API instance (defaults to /ip4/127.0.0.1/tcp/5001)"],
        -- global options, added to every command
        CmdOption.defined "cmdenv.OptionCidBase",
        CmdOption.defined "cmdenv.OptionUpgradeCidV0InOutput",
        CmdOption.defined "cmds.OptionEncodingType",
        CmdOption.defined "cmds.OptionStreamChannels",
        CmdOption.defined "cmds.OptionTimeout" ],
    Subcommands := none,
    others := [] }

/-- The map literal of `rootSubcommands` (root.go, lines 88-103). -/
def rootSubcommandsLiteral : String → Option CmdPtr := fun key =>
  List.lookup key
    [ ("pubsub", CmdPtr.PubsubCmd),
      ("stats", CmdPtr.StatsCmd),
      ("bootstrap", CmdPtr.BootstrapCmd),
      ("config", CmdPtr.ConfigCmd),
      ("dht", CmdPtr.DhtCmd),
      ("dns", CmdPtr.DNSCmd),
      ("key", CmdPtr.KeyCmd),
      ("name", CmdPtr.NameCmd),
      ("object", CmdPtr.ObjectCmd),
      ("ping", CmdPtr.PingCmd),
      ("p2p", CmdPtr.P2PCmd),
      ("resolve", CmdPtr.ResolveCmd),
      ("swarm", CmdPtr.SwarmCmd),
      ("version", CmdPtr.VersionCmd) ]

/-- The map literal of `rootROSubcommands` (root.go, lines 114-130). -/
def rootROSubcommandsLiteral : String → Option CmdPtr := fun key =>
  List.lookup key
    [ ("dns", CmdPtr.DNSCmd),
      ("name", CmdPtr.rootROName),
      ("object", CmdPtr.rootROObject),
      ("resolve", CmdPtr.ResolveCmd) ]

/-- The inner map literal of `rootROSubcommands["name"]` (lines 117-119). -/
def rootRONameLiteral : String → Option CmdPtr := fun key =>
  List.lookup key [("resolve", CmdPtr.IpnsCmd)]

/-- The inner map literal of `rootROSubcommands["object"]` (lines 122-127). -/
def rootROObjectLiteral : String → Option CmdPtr := fun key =>
  List.lookup key
    [ ("data", CmdPtr.ObjectDataCmd),
      ("links", CmdPtr.ObjectLinksCmd),
      ("get", CmdPtr.ObjectGetCmd),
      ("stat", CmdPtr.ObjectStatCmd) ]

/-- The state after the package variables are set and before `init` runs
(root.go, lines 25-130). -/
def packageVars (L : Library) : PackageState :=
  { cmd := fun p =>
      match p with
      | CmdPtr.Root => RootLiteral L
      | CmdPtr.RootRO => Command.zero
      | CmdPtr.RefsROCmd => Command.zero
      | CmdPtr.VersionROCmd => Command.zero
      | CmdPtr.rootROName =>
        { Command.zero with Subcommands := some MapRef.rootRONameSubcommands }
      | CmdPtr.rootROObject =>
        { Command.zero with Subcommands := some MapRef.rootROObjectSubcommands }
      | q => (L.command q).toCommand,
    subcommands := fun m =>
      match m with
      | MapRef.rootSubcommands => rootSubcommandsLiteral
      | MapRef.rootROSubcommands => rootROSubcommandsLiteral
      | MapRef.rootRONameSubcommands => rootRONameLiteral
      | MapRef.rootROObjectSubcommands => rootROObjectLiteral
      | MapRef.versionROSubcommands => fun _ => none
      | MapRef.defined n => L.subcommands n }

/-- The call `p.ProcessHelp()`. -/
def PackageState.ProcessHelp (L : Library) (s : PackageState) (p : CmdPtr) : PackageState :=
  { s with cmd := fun q => if q = p then L.ProcessHelp (s.cmd p) else s.cmd q }

/-- The assignment `*dst = *src` of whole structs. -/
def PackageState.copyCommand (s : PackageState) (dst src : CmdPtr) : PackageState :=
  { s with cmd := fun q => if q = dst then s.cmd src else s.cmd q }

/-- The assignment `p.Subcommands = m` of a map reference to the field. -/
def PackageState.setSubcommands (s : PackageState) (p : CmdPtr) (m : MapRef) : PackageState :=
  { s with cmd := fun q => if q = p then { s.cmd p with Subcommands := some m } else s.cmd q }

/-- The map literal `map[string]*cmds.Command{}`: the map `m` is made, empty. -/
def PackageState.makeMap (s : PackageState) (m : MapRef) : PackageState :=
  { s with subcommands := fun n => if n = m then (fun _ => none) else s.subcommands n }

/-- The assignment `m[key] = p` to a map. -/
def PackageState.mapStore (s : PackageState) (m : MapRef) (key : String) (p : CmdPtr) :
    PackageState :=
  { s with subcommands := fun n =>
      if n = m then (fun k => if k = key then some p else s.subcommands m k)
      else s.subcommands n }

/-- The first statements of `init` (root.go, lines 133-134). -/
def initRoot (L : Library) (s : PackageState) : PackageState :=
  let s1 := s.ProcessHelp L CmdPtr.Root
  s1.copyCommand CmdPtr.RootRO CmdPtr.Root

/-- The sanitising of the read-only version command (root.go, lines 141-143). -/
def sanitizeVersion (s : PackageState) : PackageState :=
  let s1 := s.copyCommand CmdPtr.VersionROCmd CmdPtr.VersionCmd
  let s2 := (s1.makeMap MapRef.versionROSubcommands).setSubcommands CmdPtr.VersionROCmd
    MapRef.versionROSubcommands
  s2.mapStore MapRef.rootROSubcommands "version" CmdPtr.VersionROCmd

/-- The function `init` (root.go, lines 132-147), from the state of the package
variables. -/
def packageInit (L : Library) : PackageState :=
  let s1 := initRoot L (packageVars L)
  let s2 := sanitizeVersion s1
  let s3 := s2.setSubcommands CmdPtr.Root MapRef.rootSubcommands
  s3.setSubcommands CmdPtr.RootRO MapRef.rootROSubcommands

/-- The content of the map in the field `Subcommands` of the command at `p`, or
`none` when the field is nil. -/
def PackageState.subcommandsOf (s : PackageState) (p : CmdPtr) :
    Option (String → Option CmdPtr) :=
  (s.cmd p).Subcommands.map s.subcommands

/-- A library for the examples: `ProcessHelp` records a long description, and
the version command has the subcommand `deps`. -/
def exampleLibrary : Library :=
  { OptLongHelp := "help",
    OptShortHelp := "h",
    ProcessHelp := fun c =>
      { c with Helptext := { c.Helptext with
          others := c.Helptext.others ++ [("LongDescription", "")] } },
    command := fun p =>
      match p with
      | CmdPtr.VersionCmd =>
        { Options := [CmdOption.BoolOption ["number", "n", "Only show the version number."]],
          Helptext :=
            { Tagline := "Show IPFS version information.", Synopsis := "", Subcommands := "",
              others := [] },
          Subcommands := some 0,
          others := [("Run", "version")] }
      | _ =>
        { Options := [],
          Helptext := { Tagline := "", Synopsis := "", Subcommands := "", others := [] },
          Subcommands := none, others := [] },
    subcommands := fun n key =>
      if n = 0 ∧ key = "deps" then some (CmdPtr.reached 0) else none }

/-! ## Lemmas on the chunker -/

theorem goInt_eq (x : Int) (h1 : -(2 ^ 63) ≤ x) (h2 : x < 2 ^ 63) : goInt x = x := by
  unfold goInt
  omega

theorem ceilDiv_zero (c : Nat) (hc : 0 < c) : (c - 1) / c = 0 := by
  apply Nat.div_eq_of_lt
  omega

theorem ceilDiv_step (n c : Nat) (hc : 0 < c) (hn : 0 < n) :
    (n + c - 1) / c = (n - c + c - 1) / c + 1 := by
  by_cases h : c ≤ n
  · have e1 : n + c - 1 = (n - 1) + c := by omega
    have e2 : n - c + c - 1 = n - 1 := by omega
    rw [e1, e2, Nat.add_div_right _ hc]
  · have e2 : n - c + c - 1 = c - 1 := by omega
    have e1 : n + c - 1 = (n - 1) + c := by omega
    rw [e1, e2, Nat.add_div_right _ hc]
    have a : (n - 1) / c = 0 := Nat.div_eq_of_lt (by omega)
    have b : (c - 1) / c = 0 := Nat.div_eq_of_lt (by omega)
    rw [a, b]

theorem splitFixed_length (c : Nat) (hc : 0 < c) :
    ∀ (fuel : Nat) (data : List Byte), data.length ≤ fuel →
      (splitFixed c fuel data).length = (data.length + c - 1) / c := by
  intro fuel
  induction fuel with
  | zero =>
    intro data h
    have : data = [] := List.length_eq_zero.mp (by omega)
    subst this
    simp [splitFixed, ceilDiv_zero c hc]
  | succ fuel ih =>
    intro data h
    by_cases hd : data = []
    · subst hd
      simp [splitFixed, ceilDiv_zero c hc]
    · have hpos : 0 < data.length := List.length_pos.mpr hd
      have hdrop : (data.drop c).length ≤ fuel := by
        rw [List.length_drop]; omega
      simp only [splitFixed, hd, if_false, List.length_cons, ih _ hdrop, List.length_drop]
      rw [ceilDiv_step data.length c hc hpos]

theorem splitFixed_flatten (c : Nat) (hc : 0 < c) :
    ∀ (fuel : Nat) (data : List Byte), data.length ≤ fuel →
      (splitFixed c fuel data).flatten = data := by
  intro fuel
  induction fuel with
  | zero =>
    intro data h
    have : data = [] := List.length_eq_zero.mp (by omega)
    subst this
    simp [splitFixed]
  | succ fuel ih =>
    intro data h
    by_cases hd : data = []
    · subst hd
      simp [splitFixed]
    · have hpos : 0 < data.length := List.length_pos.mpr hd
      have hdrop : (data.drop c).length ≤ fuel := by
        rw [List.length_drop]; omega
      simp only [splitFixed, hd, if_false, List.flatten_cons, ih _ hdrop, List.take_append_drop]

theorem splitFixed_chunk_pos (c : Nat) (hc : 0 < c) :
    ∀ (fuel : Nat) (data : List Byte), ∀ chunk ∈ splitFixed c fuel data, 0 < chunk.length := by
  intro fuel
  induction fuel with
  | zero => intro data chunk h; simp [splitFixed] at h
  | succ fuel ih =>
    intro data chunk h
    by_cases hd : data = []
    · subst hd; simp [splitFixed] at h
    · have hpos : 0 < data.length := List.length_pos.mpr hd
      simp only [splitFixed, hd, if_false, List.mem_cons] at h
      rcases h with h | h
      · subst h
        rw [List.length_take]
        omega
      · exact ih _ _ h

theorem chunkFixed_ne_nil (c : Nat) (data : List Byte) (hd : data ≠ []) :
    chunkFixed c data ≠ [] := by
  unfold chunkFixed
  have hpos : 0 < data.length := List.length_pos.mpr hd
  obtain ⟨n, hn⟩ : ∃ n, data.length = n + 1 := ⟨data.length - 1, by omega⟩
  rw [hn]
  simp [splitFixed, hd]

/-! ## Lemmas on the recorded offsets -/

theorem posOffsets_append (xs ys : List Block) :
    posOffsets (xs ++ ys) = posOffsets xs ++ posOffsets ys := by
  induction xs with
  | nil => rfl
  | cons b rest ih => cases b <;> simp [posOffsets, ih]

theorem posOffsets_map_node (ns : List DAGNode) : posOffsets (ns.map Block.node) = [] := by
  induction ns with
  | nil => rfl
  | cons n rest ih => simp [posOffsets, ih]

theorem posInfoBlocks_append (xs ys : List Block) :
    posInfoBlocks (xs ++ ys) = posInfoBlocks xs ++ posInfoBlocks ys := by
  simp [posInfoBlocks]

theorem posInfoBlocks_map_node (ns : List DAGNode) : posInfoBlocks (ns.map Block.node) = [] := by
  induction ns with
  | nil => rfl
  | cons n rest ih =>
    simp only [posInfoBlocks] at ih
    simp [posInfoBlocks, ih]

theorem posInfoBlocks_noCopyLeaves (fullPath : String) :
    ∀ (chunks : List (List Byte)) (offset : Nat),
      posInfoBlocks (noCopyLeaves fullPath offset chunks) = noCopyLeaves fullPath offset chunks := by
  intro chunks
  induction chunks with
  | nil => intro offset; rfl
  | cons chunk rest ih =>
    intro offset
    have h := ih (offset + chunk.length)
    simp only [posInfoBlocks] at h
    simp [posInfoBlocks, noCopyLeaves, h]

theorem noCopyLeaves_length (fullPath : String) :
    ∀ (chunks : List (List Byte)) (offset : Nat),
      (noCopyLeaves fullPath offset chunks).length = chunks.length := by
  intro chunks
  induction chunks with
  | nil => intro offset; rfl
  | cons chunk rest ih => intro offset; simp [noCopyLeaves, ih]

theorem noCopyLeaves_path (fullPath : String) :
    ∀ (chunks : List (List Byte)) (offset : Nat) (n : DAGNode) (posInfo : PosInfo),
      Block.filestoreNode n posInfo ∈ noCopyLeaves fullPath offset chunks →
        posInfo.FullPath = fullPath := by
  intro chunks
  induction chunks with
  | nil => intro offset n posInfo h; simp [noCopyLeaves] at h
  | cons chunk rest ih =>
    intro offset n posInfo h
    simp only [noCopyLeaves, List.mem_cons] at h
    rcases h with h | h
    · injection h with _ h2
      rw [h2]
    · exact ih _ _ _ h

theorem posOffsets_noCopyLeaves_length (fullPath : String) :
    ∀ (chunks : List (List Byte)) (offset : Nat),
      (posOffsets (noCopyLeaves fullPath offset chunks)).length = chunks.length := by
  intro chunks
  induction chunks with
  | nil => intro offset; rfl
  | cons chunk rest ih => intro offset; simp [noCopyLeaves, posOffsets, ih]

/-- The offset recorded for chunk `i` is the start offset plus the lengths of
the chunks before it. -/
theorem posOffsets_noCopyLeaves_getElem (fullPath : String) :
    ∀ (chunks : List (List Byte)) (offset i : Nat), i < chunks.length →
      (posOffsets (noCopyLeaves fullPath offset chunks))[i]? =
        some (offset + ((chunks.take i).map List.length).sum) := by
  intro chunks
  induction chunks with
  | nil => intro offset i h; simp at h
  | cons chunk rest ih =>
    intro offset i h
    cases i with
    | zero => simp [noCopyLeaves, posOffsets]
    | succ j =>
      have hj : j < rest.length := by simpa using h
      simp only [noCopyLeaves, posOffsets, List.getElem?_cons_succ, ih _ j hj, List.take_succ_cons,
        List.map_cons, List.sum_cons]
      congr 1
      omega

theorem posOffsets_noCopyLeaves_ge (fullPath : String) :
    ∀ (chunks : List (List Byte)) (offset : Nat),
      ∀ o ∈ posOffsets (noCopyLeaves fullPath offset chunks), offset ≤ o := by
  intro chunks
  induction chunks with
  | nil => intro offset o h; simp [noCopyLeaves, posOffsets] at h
  | cons chunk rest ih =>
    intro offset o h
    simp only [noCopyLeaves, posOffsets, List.mem_cons] at h
    rcases h with h | h
    · omega
    · have := ih _ o h
      omega

theorem posOffsets_noCopyLeaves_pairwise (fullPath : String) :
    ∀ (chunks : List (List Byte)) (offset : Nat),
      (∀ chunk ∈ chunks, 0 < chunk.length) →
        (posOffsets (noCopyLeaves fullPath offset chunks)).Pairwise (fun a b => a < b) := by
  intro chunks
  induction chunks with
  | nil => intro offset _; simp [noCopyLeaves, posOffsets]
  | cons chunk rest ih =>
    intro offset hpos
    simp only [noCopyLeaves, posOffsets, List.pairwise_cons]
    constructor
    · intro o ho
      have h1 := posOffsets_noCopyLeaves_ge fullPath rest _ o ho
      have h2 := hpos chunk (List.mem_cons_self _ _)
      omega
    · exact ih _ (fun ch hch => hpos ch (List.mem_cons_of_mem _ hch))

theorem posOffsets_noCopyLeaves_count_zero (fullPath : String) (chunks : List (List Byte))
    (hne : chunks ≠ []) (hpos : ∀ chunk ∈ chunks, 0 < chunk.length) :
    (posOffsets (noCopyLeaves fullPath 0 chunks)).count 0 = 1 := by
  cases chunks with
  | nil => exact absurd rfl hne
  | cons chunk rest =>
    have h0 : (posOffsets (noCopyLeaves fullPath (0 + chunk.length) rest)).count 0 = 0 := by
      apply List.count_eq_zero.mpr
      intro hmem
      have h1 := posOffsets_noCopyLeaves_ge fullPath rest _ 0 hmem
      have h2 := hpos chunk (List.mem_cons_self _ _)
      omega
    simp only [noCopyLeaves, posOffsets, List.count_cons_self, h0]

theorem count_zero_add_filter (offs : List Nat) :
    offs.count 0 + (offs.filter (fun o => decide (o ≠ 0))).length = offs.length := by
  induction offs with
  | nil => rfl
  | cons o rest ih =>
    by_cases h : o = 0
    · subst h
      simp only [List.count_cons_self, List.length_cons]
      simp at ih ⊢
      omega
    · have hc : (o :: rest).count 0 = rest.count 0 := by
        rw [List.count_cons_of_ne (Ne.symm h)]
      rw [hc]
      simp [h] at ih ⊢
      omega

/-! ## Lemmas on the counters of `testBlockstore` -/

/-- Running the checks over a batch whose position information all names the
expected path adds to the two counters the number of zero and of nonzero
offsets, as long as the totals stay in the range of `int`. -/
theorem checkAll_counts :
    ∀ (blocks : List Block) (bs : testBlockstore),
      (∀ n posInfo, Block.filestoreNode n posInfo ∈ blocks → posInfo.FullPath = bs.expectedPath) →
      0 ≤ bs.countAtOffsetZero → 0 ≤ bs.countAtOffsetNonZero →
      bs.countAtOffsetZero + (posOffsets blocks).length < 2 ^ 63 →
      bs.countAtOffsetNonZero + (posOffsets blocks).length < 2 ^ 63 →
      bs.checkAll blocks = Except.ok
        { bs with
          countAtOffsetZero := bs.countAtOffsetZero + ((posOffsets blocks).count 0 : Nat)
          countAtOffsetNonZero := bs.countAtOffsetNonZero +
            (((posOffsets blocks).filter (fun o => decide (o ≠ 0))).length : Nat) } := by
  intro blocks
  induction blocks with
  | nil => intro bs _ _ _ _ _; simp [testBlockstore.checkAll, posOffsets]
  | cons b rest ih =>
    intro bs hpath hz hn hzb hnb
    have hrest : ∀ n posInfo, Block.filestoreNode n posInfo ∈ rest →
        posInfo.FullPath = bs.expectedPath :=
      fun n p hm => hpath n p (List.mem_cons_of_mem _ hm)
    cases b with
    | node n =>
      simp only [posOffsets] at hzb hnb ⊢
      simp only [testBlockstore.checkAll, testBlockstore.CheckForPosInfo]
      exact ih bs hrest hz hn hzb hnb
    | filestoreNode n posInfo =>
      have hp : posInfo.FullPath = bs.expectedPath := hpath n posInfo (List.mem_cons_self _ _)
      simp only [posOffsets, List.length_cons] at hzb hnb ⊢
      push_cast at hzb hnb
      by_cases ho : posInfo.Offset = 0
      · have hg : goInt (bs.countAtOffsetZero + 1) = bs.countAtOffsetZero + 1 :=
          goInt_eq _ (by omega) (by omega)
        simp only [testBlockstore.checkAll, testBlockstore.CheckForPosInfo, hp, ho, ne_eq,
          not_true_eq_false, if_false, if_true, hg]
        refine (ih { bs with countAtOffsetZero := bs.countAtOffsetZero + 1 } hrest
          ?_ ?_ ?_ ?_).trans ?_
        · show 0 ≤ bs.countAtOffsetZero + 1
          omega
        · exact hn
        · show bs.countAtOffsetZero + 1 + ((posOffsets rest).length : Int) < 2 ^ 63
          omega
        · show bs.countAtOffsetNonZero + ((posOffsets rest).length : Int) < 2 ^ 63
          omega
        · simp only [List.count_cons_self, Nat.cast_add, Nat.cast_one]
          simp
          omega
      · have hg : goInt (bs.countAtOffsetNonZero + 1) = bs.countAtOffsetNonZero + 1 :=
          goInt_eq _ (by omega) (by omega)
        simp only [testBlockstore.checkAll, testBlockstore.CheckForPosInfo, hp, ho, ne_eq,
          not_true_eq_false, if_false, hg]
        have hc : (posInfo.Offset :: posOffsets rest).count 0 = (posOffsets rest).count 0 := by
          rw [List.count_cons_of_ne (Ne.symm ho)]
        refine (ih { bs with countAtOffsetNonZero := bs.countAtOffsetNonZero + 1 } hrest
          ?_ ?_ ?_ ?_).trans ?_
        · exact hz
        · show 0 ≤ bs.countAtOffsetNonZero + 1
          omega
        · show bs.countAtOffsetZero + ((posOffsets rest).length : Int) < 2 ^ 63
          omega
        · show bs.countAtOffsetNonZero + 1 + ((posOffsets rest).length : Int) < 2 ^ 63
          omega
        · rw [hc]
          simp [ho]
          omega

theorem checkAll_setStore :
    ∀ (blocks : List Block) (bs bs1 : testBlockstore) (g : List Block),
      bs.checkAll blocks = Except.ok bs1 →
        testBlockstore.checkAll { bs with GCBlockstore := g } blocks =
          Except.ok { bs1 with GCBlockstore := g } := by
  intro blocks
  induction blocks with
  | nil =>
    intro bs bs1 g h
    simp only [testBlockstore.checkAll] at h ⊢
    injection h with h
    rw [h]
  | cons b rest ih =>
    intro bs bs1 g h
    cases b with
    | node n =>
      simp only [testBlockstore.checkAll, testBlockstore.CheckForPosInfo] at h ⊢
      exact ih bs bs1 g h
    | filestoreNode n posInfo =>
      simp only [testBlockstore.checkAll, testBlockstore.CheckForPosInfo] at h ⊢
      by_cases hp : posInfo.FullPath = bs.expectedPath
      · by_cases ho : posInfo.Offset = 0
        · simp only [hp, ho, ne_eq, not_true_eq_false, if_false, if_true] at h ⊢
          exact ih _ bs1 g h
        · simp only [hp, ho, ne_eq, not_true_eq_false, if_false] at h ⊢
          exact ih _ bs1 g h
      · simp [hp] at h

theorem checkAll_error_setStore :
    ∀ (blocks : List Block) (bs : testBlockstore) (g : List Block) (e : String),
      bs.checkAll blocks = Except.error e →
        testBlockstore.checkAll { bs with GCBlockstore := g } blocks = Except.error e := by
  intro blocks
  induction blocks with
  | nil => intro bs g e h; simp [testBlockstore.checkAll] at h
  | cons b rest ih =>
    intro bs g e h
    cases b with
    | node n =>
      simp only [testBlockstore.checkAll, testBlockstore.CheckForPosInfo] at h ⊢
      exact ih bs g e h
    | filestoreNode n posInfo =>
      simp only [testBlockstore.checkAll, testBlockstore.CheckForPosInfo] at h ⊢
      by_cases hp : posInfo.FullPath = bs.expectedPath
      · by_cases ho : posInfo.Offset = 0
        · simp only [hp, ho, ne_eq, not_true_eq_false, if_false, if_true] at h ⊢
          exact ih _ g e h
        · simp only [hp, ho, ne_eq, not_true_eq_false, if_false] at h ⊢
          exact ih _ g e h
      · simpa [hp] using h

theorem checkAll_store :
    ∀ (blocks : List Block) (x y : testBlockstore),
      x.checkAll blocks = Except.ok y → y.GCBlockstore = x.GCBlockstore := by
  intro blocks
  induction blocks with
  | nil =>
    intro x y h
    simp only [testBlockstore.checkAll] at h
    injection h with h
    rw [h]
  | cons c more ihm =>
    intro x y h
    cases c with
    | node n =>
      simp only [testBlockstore.checkAll, testBlockstore.CheckForPosInfo] at h
      exact ihm x y h
    | filestoreNode n posInfo =>
      simp only [testBlockstore.checkAll, testBlockstore.CheckForPosInfo] at h
      by_cases hp : posInfo.FullPath = x.expectedPath
      · by_cases ho : posInfo.Offset = 0
        · simp only [hp, ho, ne_eq, not_true_eq_false, if_false, if_true] at h
          have hstep := ihm _ y h
          exact hstep
        · simp only [hp, ho, ne_eq, not_true_eq_false, if_false] at h
          have hstep := ihm _ y h
          exact hstep
      · simp [hp] at h

/-- Putting the blocks one at a time with `Put` leaves the store as putting
them in one batch with `PutMany` does. -/
theorem putEach_eq_PutMany :
    ∀ (blocks : List Block) (bs : testBlockstore), bs.putEach blocks = bs.PutMany blocks := by
  intro blocks
  induction blocks with
  | nil =>
    intro bs
    simp [testBlockstore.putEach, testBlockstore.PutMany, testBlockstore.checkAll]
  | cons b rest ih =>
    intro bs
    simp only [testBlockstore.putEach, testBlockstore.Put, testBlockstore.PutMany,
      testBlockstore.checkAll]
    cases hb : bs.CheckForPosInfo b with
    | error e => rfl
    | ok bs1 =>
      simp only []
      rw [ih]
      simp only [testBlockstore.PutMany]
      cases hr : bs1.checkAll rest with
      | error e =>
        rw [checkAll_error_setStore rest bs1 (bs1.GCBlockstore ++ [b]) e hr]
      | ok bs2 =>
        rw [checkAll_setStore rest bs1 bs2 (bs1.GCBlockstore ++ [b]) hr]
        simp only [List.append_assoc, List.singleton_append]
        rw [checkAll_store rest bs1 bs2 hr]

/-! ## The add with no-copy, as the test store sees it -/

theorem addFile_nocopy_raw (layout : Layout) (fullPath : String) (progress : Bool) (c : Nat)
    (data : List Byte) (hd : data ≠ []) :
    ∃ inner : List DAGNode,
      Adder.addFile { Progress := progress, RawLeaves := true, NoCopy := true, ChunkSize := c }
          layout fullPath data =
        noCopyLeaves fullPath 0 (chunkFixed c data) ++ inner.map Block.node := by
  have hne : noCopyLeaves fullPath 0 (chunkFixed c data) ≠ [] := by
    intro h
    have hl := noCopyLeaves_length fullPath (chunkFixed c data) 0
    rw [h] at hl
    exact chunkFixed_ne_nil c data hd (List.length_eq_zero.mp hl.symm)
  refine ⟨layout ((noCopyLeaves fullPath 0 (chunkFixed c data)).map
    (fun b => (b.toNode, b.toNode.payload.length))), ?_⟩
  simp [Adder.addFile, Adder.leaves, leafBlocks, hne]

theorem addFile_not_raw (layout : Layout) (fullPath : String) (progress noCopy : Bool) (c : Nat)
    (data : List Byte) :
    ∃ nodes : List DAGNode,
      Adder.addFile { Progress := progress, RawLeaves := false, NoCopy := noCopy, ChunkSize := c }
          layout fullPath data = nodes.map Block.node := by
  by_cases h : (chunkFixed c data).map (fun chunk => Block.node (encodeLeaf chunk false)) = []
  · refine ⟨[encodeLeaf [] false], ?_⟩
    simp [Adder.addFile, Adder.leaves, leafBlocks, h]
  · refine ⟨(chunkFixed c data).map (fun chunk => encodeLeaf chunk false) ++
      layout (((chunkFixed c data).map (fun chunk => Block.node (encodeLeaf chunk false))).map
        (fun b => (b.toNode, b.toNode.payload.length))), ?_⟩
    simp only [Adder.addFile, Adder.leaves, leafBlocks, Bool.and_false, Bool.false_eq_true, if_false, h,
      List.map_append, List.map_map]
    rfl

theorem ceilDiv_bounds (n c : Nat) (hc : 0 < c) (hn : 0 < n) :
    0 < (n + c - 1) / c ∧ ((n + c - 1) / c - 1) * c < n ∧ n ≤ (n + c - 1) / c * c := by
  have h1 : (n + c - 1) / c * c ≤ n + c - 1 := Nat.div_mul_le_self _ _
  have h2 : n + c - 1 < ((n + c - 1) / c + 1) * c :=
    (Nat.div_lt_iff_lt_mul hc).mp (Nat.lt_succ_self _)
  have h3 : 0 < (n + c - 1) / c := Nat.div_pos (by omega) hc
  have h4 : ((n + c - 1) / c - 1) * c = (n + c - 1) / c * c - c := by
    rw [Nat.sub_mul, Nat.one_mul]
  have h5 : ((n + c - 1) / c + 1) * c = (n + c - 1) / c * c + c := by ring
  have h6 : c ≤ (n + c - 1) / c * c := Nat.le_mul_of_pos_left c h3
  refine ⟨h3, ?_, ?_⟩ <;> omega

theorem posOffsets_nocopy_blocks (fullPath : String) (chunks : List (List Byte))
    (inner : List DAGNode) :
    posOffsets (noCopyLeaves fullPath 0 chunks ++ inner.map Block.node) =
      posOffsets (noCopyLeaves fullPath 0 chunks) := by
  rw [posOffsets_append, posOffsets_map_node, List.append_nil]

theorem chunkFixed_length (c : Nat) (hc : 0 < c) (data : List Byte) :
    (chunkFixed c data).length = (data.length + c - 1) / c :=
  splitFixed_length c hc data.length data (Nat.le_refl _)

theorem ceilDiv_le (n c : Nat) (hc : 0 < c) (hn : 0 < n) : (n + c - 1) / c ≤ n := by
  have h := ceilDiv_bounds n c hc hn
  have h4 : ((n + c - 1) / c - 1) * c = (n + c - 1) / c * c - c := by
    rw [Nat.sub_mul, Nat.one_mul]
  have h5 : (n + c - 1) / c - 1 ≤ ((n + c - 1) / c - 1) * c := Nat.le_mul_of_pos_right _ hc
  omega

/-- The store after an add with no-copy and raw leaves: one block at offset
zero, all other chunk blocks at a nonzero offset. -/
theorem addAllAndPin_nocopy_raw (layout : Layout) (fooPath : String) (progress : Bool) (c : Nat)
    (data : List Byte) (hc : 0 < c) (hS : 0 < data.length) (hS63 : data.length < 2 ^ 63) :
    Adder.AddAllAndPin { Progress := progress, RawLeaves := true, NoCopy := true, ChunkSize := c }
        layout (newTestBlockstore fooPath) fooPath data =
      Except.ok
        { GCBlockstore :=
            Adder.addFile { Progress := progress, RawLeaves := true, NoCopy := true, ChunkSize := c }
              layout fooPath data
          expectedPath := fooPath
          countAtOffsetZero := 1
          countAtOffsetNonZero := (((data.length + c - 1) / c - 1 : Nat) : Int) } := by
  have hd : data ≠ [] := List.length_pos.mp hS
  obtain ⟨inner, hb⟩ := addFile_nocopy_raw layout fooPath progress c data hd
  have hchunks : chunkFixed c data ≠ [] := chunkFixed_ne_nil c data hd
  have hpos : ∀ chunk ∈ chunkFixed c data, 0 < chunk.length :=
    splitFixed_chunk_pos c hc data.length data
  have hlen : (posOffsets (noCopyLeaves fooPath 0 (chunkFixed c data))).length =
      (data.length + c - 1) / c := by
    rw [posOffsets_noCopyLeaves_length, chunkFixed_length c hc]
  have hle := ceilDiv_le data.length c hc hS
  have hcount := posOffsets_noCopyLeaves_count_zero fooPath (chunkFixed c data) hchunks hpos
  have hsum := count_zero_add_filter (posOffsets (noCopyLeaves fooPath 0 (chunkFixed c data)))
  have hpath : ∀ n posInfo,
      Block.filestoreNode n posInfo ∈ noCopyLeaves fooPath 0 (chunkFixed c data) ++
        inner.map Block.node → posInfo.FullPath = (newTestBlockstore fooPath).expectedPath := by
    intro n posInfo hm
    rcases List.mem_append.mp hm with h | h
    · exact noCopyLeaves_path fooPath _ _ n posInfo h
    · simp at h
  have hbound : ((posOffsets (noCopyLeaves fooPath 0 (chunkFixed c data) ++
      inner.map Block.node)).length : Int) < 2 ^ 63 := by
    rw [posOffsets_nocopy_blocks, hlen]
    have : (data.length + c - 1) / c < 2 ^ 63 := by omega
    exact_mod_cast this
  have hrun := checkAll_counts _ (newTestBlockstore fooPath) hpath (by simp [newTestBlockstore])
    (by simp [newTestBlockstore])
    (by simpa [newTestBlockstore] using hbound) (by simpa [newTestBlockstore] using hbound)
  rw [posOffsets_nocopy_blocks] at hrun
  simp only [Adder.AddAllAndPin, testBlockstore.PutMany, hb, hrun, hcount]
  have hf : (List.filter (fun o => decide (o ≠ 0))
      (posOffsets (noCopyLeaves fooPath 0 (chunkFixed c data)))).length =
      (data.length + c - 1) / c - 1 := by omega
  rw [hf]
  simp [newTestBlockstore]

/-- Without raw leaves no block carries position information, and the store
ends the add with both counters at zero. -/
theorem addAllAndPin_not_raw (layout : Layout) (fooPath : String) (progress noCopy : Bool)
    (c : Nat) (data : List Byte) :
    Adder.AddAllAndPin { Progress := progress, RawLeaves := false, NoCopy := noCopy, ChunkSize := c }
        layout (newTestBlockstore fooPath) fooPath data =
      Except.ok
        { GCBlockstore :=
            Adder.addFile
              { Progress := progress, RawLeaves := false, NoCopy := noCopy, ChunkSize := c }
              layout fooPath data
          expectedPath := fooPath
          countAtOffsetZero := 0
          countAtOffsetNonZero := 0 } := by
  obtain ⟨nodes, hb⟩ := addFile_not_raw layout fooPath progress noCopy c data
  have hpath : ∀ n posInfo, Block.filestoreNode n posInfo ∈ nodes.map Block.node →
      posInfo.FullPath = (newTestBlockstore fooPath).expectedPath := by
    intro n posInfo hm
    simp at hm
  have hrun := checkAll_counts _ (newTestBlockstore fooPath) hpath (by simp [newTestBlockstore])
    (by simp [newTestBlockstore])
    (by simp [newTestBlockstore, posOffsets_map_node])
    (by simp [newTestBlockstore, posOffsets_map_node])
  simp only [Adder.AddAllAndPin, testBlockstore.PutMany, hb, hrun, posOffsets_map_node]
  simp [newTestBlockstore]

/-! ## The claims on `add_test.go` -/

/-- C1: an add of one file of `S > 0` bytes with no-copy and raw leaves, cut by
the fixed-size chunker with chunk size `c > 0`, puts to the block store exactly
`ceil(S/c)` blocks that carry a `PosInfo`, namely the raw leaves of the chunks
(which together are the file); exactly one of their offsets is 0 and the other
`ceil(S/c) - 1` are nonzero, and these are the two counters `testBlockstore`
ends with.  For the input of the test (5 MiB, default chunk size) the run of
`testAddWPosInfo` with raw leaves passes its checks with counters 1 and 19.
`ceil(S/c)` is written `(S + c - 1) / c`; `S < 2^63` is the range of a Go
length. -/
theorem add_nocopy_rawleaves_posinfo_counts (layout : Layout) (fooPath : String)
    (progress : Bool) (c : Nat) (data : List Byte)
    (hc : 0 < c) (hS : 0 < data.length) (hS63 : data.length < 2 ^ 63) :
    ((data.length + c - 1) / c - 1) * c < data.length ∧
    data.length ≤ (data.length + c - 1) / c * c ∧
    (chunkFixed c data).flatten = data ∧
    (posInfoBlocks (Adder.addFile
        { Progress := progress, RawLeaves := true, NoCopy := true, ChunkSize := c }
        layout fooPath data)).map Block.toNode = (chunkFixed c data).map DAGNode.rawLeaf ∧
    (posInfoBlocks (Adder.addFile
        { Progress := progress, RawLeaves := true, NoCopy := true, ChunkSize := c }
        layout fooPath data)).length = (data.length + c - 1) / c ∧
    (posOffsets (Adder.addFile
        { Progress := progress, RawLeaves := true, NoCopy := true, ChunkSize := c }
        layout fooPath data)).count 0 = 1 ∧
    ((posOffsets (Adder.addFile
        { Progress := progress, RawLeaves := true, NoCopy := true, ChunkSize := c }
        layout fooPath data)).filter (fun o => decide (o ≠ 0))).length =
      (data.length + c - 1) / c - 1 ∧
    (∃ bs1 : testBlockstore,
      Adder.AddAllAndPin
          { Progress := progress, RawLeaves := true, NoCopy := true, ChunkSize := c }
          layout (newTestBlockstore fooPath) fooPath data = Except.ok bs1 ∧
        bs1.countAtOffsetZero = 1 ∧
        bs1.countAtOffsetNonZero = (((data.length + c - 1) / c - 1 : Nat) : Int)) ∧
    (data.length = 5 * 1024 * 1024 →
      ∃ bs1 : testBlockstore,
        testAddWPosInfo layout fooPath data true = Except.ok bs1 ∧
          bs1.countAtOffsetZero = 1 ∧ bs1.countAtOffsetNonZero = 19) := by
  have hd : data ≠ [] := List.length_pos.mp hS
  obtain ⟨inner, hb⟩ := addFile_nocopy_raw layout fooPath progress c data hd
  have hchunks : chunkFixed c data ≠ [] := chunkFixed_ne_nil c data hd
  have hpos : ∀ chunk ∈ chunkFixed c data, 0 < chunk.length :=
    splitFixed_chunk_pos c hc data.length data
  have hlen : (posOffsets (noCopyLeaves fooPath 0 (chunkFixed c data))).length =
      (data.length + c - 1) / c := by
    rw [posOffsets_noCopyLeaves_length, chunkFixed_length c hc]
  have hcount := posOffsets_noCopyLeaves_count_zero fooPath (chunkFixed c data) hchunks hpos
  have hsum := count_zero_add_filter (posOffsets (noCopyLeaves fooPath 0 (chunkFixed c data)))
  have hpib : posInfoBlocks (noCopyLeaves fooPath 0 (chunkFixed c data) ++ inner.map Block.node) =
      noCopyLeaves fooPath 0 (chunkFixed c data) := by
    rw [posInfoBlocks_append, posInfoBlocks_map_node, List.append_nil,
      posInfoBlocks_noCopyLeaves]
  have hnodes : ∀ (chunks : List (List Byte)) (offset : Nat),
      (noCopyLeaves fooPath offset chunks).map Block.toNode = chunks.map DAGNode.rawLeaf := by
    intro chunks
    induction chunks with
    | nil => intro offset; rfl
    | cons chunk rest ih =>
      intro offset
      rw [noCopyLeaves, List.map_cons, ih]
      rfl
  have hb1 := ceilDiv_bounds data.length c hc hS
  refine ⟨hb1.2.1, hb1.2.2, splitFixed_flatten c hc data.length data (Nat.le_refl _), ?_, ?_, ?_,
    ?_, ?_, ?_⟩
  · rw [hb, hpib, hnodes]
  · rw [hb, hpib, noCopyLeaves_length, chunkFixed_length c hc]
  · rw [hb, posOffsets_nocopy_blocks, hcount]
  · rw [hb, posOffsets_nocopy_blocks]
    omega
  · exact ⟨_, addAllAndPin_nocopy_raw layout fooPath progress c data hc hS hS63, rfl, rfl⟩
  · intro h5
    have hrun := addAllAndPin_nocopy_raw layout fooPath true DefaultBlockSize data
      (by decide) hS hS63
    have h19 : (data.length + DefaultBlockSize - 1) / DefaultBlockSize - 1 = 19 := by
      rw [h5]
      decide
    rw [h19] at hrun
    obtain ⟨bsF, hF, hz, hn⟩ : ∃ b : testBlockstore,
        Adder.AddAllAndPin
            { Progress := true, RawLeaves := true, NoCopy := true, ChunkSize := DefaultBlockSize }
            layout (newTestBlockstore fooPath) fooPath data = Except.ok b ∧
          b.countAtOffsetZero = 1 ∧ b.countAtOffsetNonZero = 19 := ⟨_, hrun, rfl, rfl⟩
    refine ⟨bsF, ?_, hz, hn⟩
    simp [testAddWPosInfo, NewAdder, hF, checkCounts, expectedCounts, hz, hn]

/-- A run of C1 on 5 bytes cut in chunks of 2 under a balanced layout of
fan-out 2: the recorded offsets are 0, 2, 4 and the store counts 1 and 2; and
the run of the test on 5 MiB of zero bytes. -/
theorem add_nocopy_rawleaves_posinfo_counts_witness :
    posOffsets (Adder.addFile
        { Progress := true, RawLeaves := true, NoCopy := true, ChunkSize := 2 }
        (balancedLayout (fun n => { encodingTag := 0, digest := n.payload }) 2)
        "/tmp/foo.txt" [1, 2, 3, 4, 5]) = [0, 2, 4] ∧
    (∃ bs1 : testBlockstore,
      Adder.AddAllAndPin
          { Progress := true, RawLeaves := true, NoCopy := true, ChunkSize := 2 }
          (balancedLayout (fun n => { encodingTag := 0, digest := n.payload }) 2)
          (newTestBlockstore "/tmp/foo.txt") "/tmp/foo.txt" [1, 2, 3, 4, 5] = Except.ok bs1 ∧
        bs1.countAtOffsetZero = 1 ∧ bs1.countAtOffsetNonZero = 2) ∧
    (∃ bs1 : testBlockstore,
      testAddWPosInfo (balancedLayout (fun n => { encodingTag := 0, digest := n.payload }) 174)
          "/tmp/foo.txt" (List.replicate (5 * 1024 * 1024) 0) true = Except.ok bs1 ∧
        bs1.countAtOffsetZero = 1 ∧ bs1.countAtOffsetNonZero = 19) :=
  ⟨by decide,
    (add_nocopy_rawleaves_posinfo_counts
      (balancedLayout (fun n => { encodingTag := 0, digest := n.payload }) 2)
      "/tmp/foo.txt" true 2 [1, 2, 3, 4, 5] (by decide) (by decide)
      (by simp)).2.2.2.2.2.2.2.1,
    (add_nocopy_rawleaves_posinfo_counts
      (balancedLayout (fun n => { encodingTag := 0, digest := n.payload }) 174)
      "/tmp/foo.txt" true DefaultBlockSize (List.replicate (5 * 1024 * 1024) 0)
      (by decide) (by rw [List.length_replicate]; norm_num)
      (by rw [List.length_replicate]; norm_num)).2.2.2.2.2.2.2.2
      (List.length_replicate _ _)⟩

/-- C2, as stated, fails: for `rawLeaves = false` the pair the test expects is
not (0, 19), and a store that ends with 0 blocks at offset zero and 19 at a
nonzero offset fails the second check of `testAddWPosInfo`. -/
theorem expected_pair_without_rawleaves_not_0_19 :
    expectedCounts false ≠ (0, 19) ∧
    checkCounts false
        { GCBlockstore := [], expectedPath := "/tmp/foo.txt",
          countAtOffsetZero := 0, countAtOffsetNonZero := 19 } =
      Except.error "expected blocks with an offset > 0" := by
  constructor
  · decide
  · rfl

/-- The model of the add agrees with the test when raw leaves are off: no
block put carries a `PosInfo`, and the run of `testAddWPosInfo` passes with
both counters at 0, whatever the content of the file. -/
theorem testAddWPosInfo_without_rawleaves (layout : Layout) (fooPath : String)
    (data : List Byte) :
    posInfoBlocks (Adder.addFile
        { Progress := true, RawLeaves := false, NoCopy := true, ChunkSize := DefaultBlockSize }
        layout fooPath data) = [] ∧
    ∃ bs1 : testBlockstore,
      testAddWPosInfo layout fooPath data false = Except.ok bs1 ∧
        bs1.countAtOffsetZero = 0 ∧ bs1.countAtOffsetNonZero = 0 := by
  constructor
  · obtain ⟨nodes, hb⟩ := addFile_not_raw layout fooPath true true DefaultBlockSize data
    rw [hb, posInfoBlocks_map_node]
  · obtain ⟨bsF, hF, hz, hn⟩ : ∃ b : testBlockstore,
        Adder.AddAllAndPin
            { Progress := true, RawLeaves := false, NoCopy := true,
              ChunkSize := DefaultBlockSize }
            layout (newTestBlockstore fooPath) fooPath data = Except.ok b ∧
          b.countAtOffsetZero = 0 ∧ b.countAtOffsetNonZero = 0 :=
      ⟨_, addAllAndPin_not_raw layout fooPath true true DefaultBlockSize data, rfl, rfl⟩
    refine ⟨bsF, ?_, hz, hn⟩
    simp [testAddWPosInfo, NewAdder, hF, checkCounts, expectedCounts, hz, hn]

/-- C2, amended: for `rawLeaves = false` the pair of counters the test expects
is (0, 0), and its final checks pass exactly on a store with both counters 0:
no block put to the store reports a `PosInfo`, at offset zero or elsewhere. -/
theorem expected_pair_without_rawleaves :
    expectedCounts false = (0, 0) ∧
    (∀ bs : testBlockstore,
      checkCounts false bs = Except.ok () ↔
        bs.countAtOffsetZero = 0 ∧ bs.countAtOffsetNonZero = 0) := by
  refine ⟨rfl, ?_⟩
  intro bs
  by_cases hz : bs.countAtOffsetZero = 0
  · by_cases hn : bs.countAtOffsetNonZero = 0
    · simp [checkCounts, expectedCounts, hz, hn]
    · simp [checkCounts, expectedCounts, hz, hn]
  · simp [checkCounts, expectedCounts, hz]

theorem posOffsets_leafBlocks_not_raw (noCopy : Bool) (fullPath : String)
    (chunks : List (List Byte)) :
    posOffsets (leafBlocks noCopy false fullPath chunks) = [] := by
  have h : leafBlocks noCopy false fullPath chunks =
      (chunks.map (fun chunk => encodeLeaf chunk false)).map Block.node := by
    simp only [leafBlocks, Bool.and_false, Bool.false_eq_true, if_false, List.map_map]
    rfl
  rw [h, posOffsets_map_node]

/-- C3, as stated, fails: in no-copy mode without raw leaves a file cut into
the three chunks of 2, 2 and 1 bytes has no recorded offset at all, so the
recorded sequence does not start at 0 and the number of chunks at offset 0 is
not one; the same holds for the blocks the add puts to the store.  The test
agrees: without raw leaves it expects no block at offset zero, and a store
that counted one fails its first check. -/
theorem nocopy_without_rawleaves_no_offset_zero :
    chunkFixed 2 [1, 2, 3, 4, 5] = [[1, 2], [3, 4], [5]] ∧
    posOffsets (leafBlocks true false "/tmp/foo.txt" [[1, 2], [3, 4], [5]]) = [] ∧
    (posOffsets (leafBlocks true false "/tmp/foo.txt" [[1, 2], [3, 4], [5]])).head? ≠ some 0 ∧
    (posOffsets (leafBlocks true false "/tmp/foo.txt" [[1, 2], [3, 4], [5]])).count 0 ≠ 1 ∧
    (posOffsets (Adder.addFile
        { Progress := true, RawLeaves := false, NoCopy := true, ChunkSize := 2 }
        (balancedLayout (fun n => { encodingTag := 0, digest := n.payload }) 2)
        "/tmp/foo.txt" [1, 2, 3, 4, 5])).count 0 ≠ 1 ∧
    (expectedCounts false).1 = 0 ∧
    checkCounts false
        { GCBlockstore := [], expectedPath := "/tmp/foo.txt",
          countAtOffsetZero := 1, countAtOffsetNonZero := 0 } =
      Except.error "expected blocks with an offset at zero (one root and one leaf)" := by
  refine ⟨by decide, by decide, by decide, by decide, by decide, rfl, rfl⟩

/-- C3, amended: for a file cut into a non-empty sequence of chunks, each of
positive length, the offsets recorded in no-copy mode with raw leaves enabled
are as many as the chunks, the offset of chunk `i` is the sum of the lengths
of the chunks before it, the first offset is 0, the sequence is strictly
increasing, and exactly one offset is 0.  In no-copy mode with raw leaves
disabled no offset is recorded. -/
theorem nocopy_rawleaves_offsets_are_prefix_sums (fullPath : String)
    (chunks : List (List Byte))
    (hne : chunks ≠ []) (hpos : ∀ chunk ∈ chunks, 0 < chunk.length) :
    (posOffsets (leafBlocks true true fullPath chunks)).length = chunks.length ∧
    (∀ i : Nat, i < chunks.length →
      (posOffsets (leafBlocks true true fullPath chunks))[i]? =
        some (((chunks.take i).map List.length).sum)) ∧
    (posOffsets (leafBlocks true true fullPath chunks)).head? = some 0 ∧
    (posOffsets (leafBlocks true true fullPath chunks)).Pairwise (fun a b => a < b) ∧
    (posOffsets (leafBlocks true true fullPath chunks)).count 0 = 1 ∧
    posOffsets (leafBlocks true false fullPath chunks) = [] := by
  have h : leafBlocks true true fullPath chunks = noCopyLeaves fullPath 0 chunks := by
    simp [leafBlocks]
  rw [h]
  refine ⟨posOffsets_noCopyLeaves_length fullPath chunks 0, ?_, ?_,
    posOffsets_noCopyLeaves_pairwise fullPath chunks 0 hpos,
    posOffsets_noCopyLeaves_count_zero fullPath chunks hne hpos,
    posOffsets_leafBlocks_not_raw true fullPath chunks⟩
  · intro i hi
    rw [posOffsets_noCopyLeaves_getElem fullPath chunks 0 i hi, Nat.zero_add]
  · cases chunks with
    | nil => exact absurd rfl hne
    | cons chunk rest => rfl

/-- A run of the amended C3 on a file cut into chunks of 3, 1 and 2 bytes: with
raw leaves the recorded offsets are 0, 3 and 4. -/
theorem nocopy_rawleaves_offsets_are_prefix_sums_witness :
    posOffsets (leafBlocks true true "/tmp/foo.txt" [[7, 8, 9], [1], [2, 3]]) = [0, 3, 4] ∧
    (posOffsets (leafBlocks true true "/tmp/foo.txt" [[7, 8, 9], [1], [2, 3]])).Pairwise
      (fun a b => a < b) ∧
    (posOffsets (leafBlocks true true "/tmp/foo.txt" [[7, 8, 9], [1], [2, 3]])).count 0 = 1 :=
  ⟨by decide,
    (nocopy_rawleaves_offsets_are_prefix_sums "/tmp/foo.txt" [[7, 8, 9], [1], [2, 3]]
      (by decide) (by decide)).2.2.2.1,
    (nocopy_rawleaves_offsets_are_prefix_sums "/tmp/foo.txt" [[7, 8, 9], [1], [2, 3]]
      (by decide) (by decide)).2.2.2.2.1⟩

/-! ## The claims on `serveRawBlock` -/

theorem servedContents_append (xs ys : ResponseWriter) :
    servedContents (xs ++ ys) = servedContents xs ++ servedContents ys := by
  induction xs with
  | nil => rfl
  | cons c rest ih => cases c <;> simp [servedContents, ih]

theorem webErrorCalls_append (xs ys : ResponseWriter) :
    webErrorCalls (xs ++ ys) = webErrorCalls xs ++ webErrorCalls ys := by
  simp [webErrorCalls]

/-- The response after a successful fetch and read: the five calls of lines
28-39, in order, after what the response held before. -/
theorem serveRawBlock_ok (i : gatewayHandler) (ctx : Context) (w : ResponseWriter)
    (r : Request) (resolvedPath : ResolvedPath) (contentPath : ContentPath) (begin_ : Time)
    (blockReader : Reader) (block : List Byte)
    (hget : i.BlockGet ctx resolvedPath = Except.ok blockReader)
    (hread : ReadAll blockReader = (block, none)) :
    i.serveRawBlock ctx w r resolvedPath contentPath begin_ =
      w ++ [Call.setContentDispositionHeader (i.cidString resolvedPath.Cid ++ ".bin") "attachment",
        Call.addCacheControlHeaders r contentPath resolvedPath.Cid,
        Call.headerSet "Content-Type" "application/vnd.ipld.raw",
        Call.headerSet "X-Content-Type-Options" "nosniff",
        Call.ServeContent r (i.cidString resolvedPath.Cid ++ ".bin")
          (i.cacheModtime
            (w ++ [Call.setContentDispositionHeader (i.cidString resolvedPath.Cid ++ ".bin")
              "attachment"]) r contentPath resolvedPath.Cid)
          (bytesNewReader block)] := by
  simp [gatewayHandler.serveRawBlock, hget, hread]

theorem serveRawBlock_get_error (i : gatewayHandler) (ctx : Context) (w : ResponseWriter)
    (r : Request) (resolvedPath : ResolvedPath) (contentPath : ContentPath) (begin_ : Time)
    (err : String) (hget : i.BlockGet ctx resolvedPath = Except.error err) :
    i.serveRawBlock ctx w r resolvedPath contentPath begin_ =
      w ++ [Call.webError ("ipfs block get " ++ i.cidString resolvedPath.Cid) err
        StatusInternalServerError] := by
  simp only [gatewayHandler.serveRawBlock, hget]

theorem serveRawBlock_read_error (i : gatewayHandler) (ctx : Context) (w : ResponseWriter)
    (r : Request) (resolvedPath : ResolvedPath) (contentPath : ContentPath) (begin_ : Time)
    (blockReader : Reader) (err : String)
    (hget : i.BlockGet ctx resolvedPath = Except.ok blockReader)
    (hread : (ReadAll blockReader).2 = some err) :
    i.serveRawBlock ctx w r resolvedPath contentPath begin_ =
      w ++ [Call.webError ("ipfs block get " ++ i.cidString resolvedPath.Cid) err
        StatusInternalServerError] := by
  have h : ReadAll blockReader = ((ReadAll blockReader).1, some err) := by
    rw [← hread]
  simp only [gatewayHandler.serveRawBlock, hget]
  rw [h]

/-- C4: when the fetch of the block and the read of its reader both succeed,
`serveRawBlock` makes one call of `ServeContent`, and the reader it passes
holds exactly the bytes read from the fetched block: reading it whole gives the
same list of bytes, without error. -/
theorem serveRawBlock_serves_block_bytes (i : gatewayHandler) (ctx : Context)
    (w : ResponseWriter) (r : Request) (resolvedPath : ResolvedPath)
    (contentPath : ContentPath) (begin_ : Time) (blockReader : Reader) (block : List Byte)
    (hget : i.BlockGet ctx resolvedPath = Except.ok blockReader)
    (hread : ReadAll blockReader = (block, none)) :
    servedContents (i.serveRawBlock ctx w r resolvedPath contentPath begin_) =
      servedContents w ++ [block] ∧
    block = blockReader.data ∧
    (∃ name modtime,
      (i.serveRawBlock ctx w r resolvedPath contentPath begin_).getLast? =
        some (Call.ServeContent r name modtime (bytesNewReader block))) ∧
    ReadAll (bytesNewReader block) = (block, none) := by
  rw [serveRawBlock_ok i ctx w r resolvedPath contentPath begin_ blockReader block hget hread]
  refine ⟨?_, ?_, ⟨i.cidString resolvedPath.Cid ++ ".bin",
    i.cacheModtime
      (w ++ [Call.setContentDispositionHeader (i.cidString resolvedPath.Cid ++ ".bin")
        "attachment"]) r contentPath resolvedPath.Cid, ?_⟩, rfl⟩
  · rw [servedContents_append]
    rfl
  · have := congrArg Prod.fst hread
    exact this.symm
  · simp

/-- A run of C4: the stored block of the example handler is served byte for
byte. -/
theorem serveRawBlock_serves_block_bytes_witness :
    servedContents (exampleHandler.serveRawBlock { id := 0 } []
        { Method := "GET", URL := "/ipfs/bafkqaaa?format=raw", Header := [] }
        { path := "/ipfs/bafkqaaa", Cid := { encodingTag := 85, digest := [] } }
        { path := "/ipfs/bafkqaaa" } 0) = servedContents [] ++ [[104, 105]] :=
  (serveRawBlock_serves_block_bytes exampleHandler { id := 0 } []
    { Method := "GET", URL := "/ipfs/bafkqaaa?format=raw", Header := [] }
    { path := "/ipfs/bafkqaaa", Cid := { encodingTag := 85, digest := [] } }
    { path := "/ipfs/bafkqaaa" } 0 { data := [104, 105], err := none } [104, 105]
    rfl rfl).1

/-- C5: `serveRawBlock` calls `webError` exactly when the fetch of the block
fails or the read of its reader fails.  In both cases the call is its only
call on the response, with the message "ipfs block get " followed by the
string of the identifier, the error of the failed step, and status 500: no
header is set and `ServeContent` is not called.  When both steps succeed,
`webError` is not called. -/
theorem serveRawBlock_error_exactly_on_failure (i : gatewayHandler) (ctx : Context)
    (w : ResponseWriter) (r : Request) (resolvedPath : ResolvedPath)
    (contentPath : ContentPath) (begin_ : Time) :
    (∀ err, i.BlockGet ctx resolvedPath = Except.error err →
      i.serveRawBlock ctx w r resolvedPath contentPath begin_ =
        w ++ [Call.webError ("ipfs block get " ++ i.cidString resolvedPath.Cid) err 500]) ∧
    (∀ blockReader err, i.BlockGet ctx resolvedPath = Except.ok blockReader →
      (ReadAll blockReader).2 = some err →
      i.serveRawBlock ctx w r resolvedPath contentPath begin_ =
        w ++ [Call.webError ("ipfs block get " ++ i.cidString resolvedPath.Cid) err 500]) ∧
    (∀ blockReader block, i.BlockGet ctx resolvedPath = Except.ok blockReader →
      ReadAll blockReader = (block, none) →
      webErrorCalls (i.serveRawBlock ctx w r resolvedPath contentPath begin_) =
        webErrorCalls w) ∧
    (webErrorCalls (i.serveRawBlock ctx w r resolvedPath contentPath begin_) ≠ webErrorCalls w ↔
      ((∃ err, i.BlockGet ctx resolvedPath = Except.error err) ∨
        ∃ blockReader err, i.BlockGet ctx resolvedPath = Except.ok blockReader ∧
          (ReadAll blockReader).2 = some err)) := by
  have hok : ∀ blockReader block, i.BlockGet ctx resolvedPath = Except.ok blockReader →
      ReadAll blockReader = (block, none) →
      webErrorCalls (i.serveRawBlock ctx w r resolvedPath contentPath begin_) =
        webErrorCalls w := by
    intro blockReader block hget hread
    rw [serveRawBlock_ok i ctx w r resolvedPath contentPath begin_ blockReader block hget hread,
      webErrorCalls_append]
    simp [webErrorCalls]
  have hne : ∀ err, webErrorCalls (w ++ [Call.webError
      ("ipfs block get " ++ i.cidString resolvedPath.Cid) err StatusInternalServerError]) ≠
      webErrorCalls w := by
    intro err h
    have hl := congrArg List.length h
    rw [webErrorCalls_append] at hl
    simp [webErrorCalls] at hl
  refine ⟨fun err hget => serveRawBlock_get_error i ctx w r resolvedPath contentPath begin_ err hget,
    fun blockReader err hget hread =>
      serveRawBlock_read_error i ctx w r resolvedPath contentPath begin_ blockReader err hget hread,
    hok, ?_⟩
  constructor
  · intro hcalls
    cases hget : i.BlockGet ctx resolvedPath with
    | error err => exact Or.inl ⟨err, rfl⟩
    | ok blockReader =>
      cases herr : (ReadAll blockReader).2 with
      | some err => exact Or.inr ⟨blockReader, err, rfl, herr⟩
      | none =>
        exfalso
        apply hcalls
        apply hok blockReader (ReadAll blockReader).1 hget
        rw [← herr]
  · intro hfail
    rcases hfail with ⟨err, hget⟩ | ⟨blockReader, err, hget, hread⟩
    · rw [serveRawBlock_get_error i ctx w r resolvedPath contentPath begin_ err hget]
      exact hne err
    · rw [serveRawBlock_read_error i ctx w r resolvedPath contentPath begin_ blockReader err
        hget hread]
      exact hne err

/-- C6: on a successful call for a block with identifier `c`, the calls made on
the response are, in order: the content disposition "attachment" with file
name `c.String() + ".bin"`, the cache-control headers computed from the
request, the content path and `c`, the header `Content-Type` set to
"application/vnd.ipld.raw", the header `X-Content-Type-Options` set to
"nosniff", and `ServeContent` with that same file name and the modtime returned
by `addCacheControlHeaders`. -/
theorem serveRawBlock_success_headers (i : gatewayHandler) (ctx : Context)
    (w : ResponseWriter) (r : Request) (resolvedPath : ResolvedPath)
    (contentPath : ContentPath) (begin_ : Time) (blockReader : Reader) (block : List Byte)
    (hget : i.BlockGet ctx resolvedPath = Except.ok blockReader)
    (hread : ReadAll blockReader = (block, none)) :
    i.serveRawBlock ctx w r resolvedPath contentPath begin_ =
      w ++ [Call.setContentDispositionHeader (i.cidString resolvedPath.Cid ++ ".bin") "attachment",
        Call.addCacheControlHeaders r contentPath resolvedPath.Cid,
        Call.headerSet "Content-Type" "application/vnd.ipld.raw",
        Call.headerSet "X-Content-Type-Options" "nosniff",
        Call.ServeContent r (i.cidString resolvedPath.Cid ++ ".bin")
          (i.cacheModtime
            (w ++ [Call.setContentDispositionHeader (i.cidString resolvedPath.Cid ++ ".bin")
              "attachment"]) r contentPath resolvedPath.Cid)
          (bytesNewReader block)] :=
  serveRawBlock_ok i ctx w r resolvedPath contentPath begin_ blockReader block hget hread

/-- A run of C6 on the stored block of the example handler. -/
theorem serveRawBlock_success_headers_witness :
    exampleHandler.serveRawBlock { id := 0 } []
        { Method := "GET", URL := "/ipfs/bafkqaaa?format=raw", Header := [] }
        { path := "/ipfs/bafkqaaa", Cid := { encodingTag := 85, digest := [] } }
        { path := "/ipfs/bafkqaaa" } 0 =
      [] ++ [Call.setContentDispositionHeader
          (exampleHandler.cidString { encodingTag := 85, digest := [] } ++ ".bin") "attachment",
        Call.addCacheControlHeaders
          { Method := "GET", URL := "/ipfs/bafkqaaa?format=raw", Header := [] }
          { path := "/ipfs/bafkqaaa" } { encodingTag := 85, digest := [] },
        Call.headerSet "Content-Type" "application/vnd.ipld.raw",
        Call.headerSet "X-Content-Type-Options" "nosniff",
        Call.ServeContent { Method := "GET", URL := "/ipfs/bafkqaaa?format=raw", Header := [] }
          (exampleHandler.cidString { encodingTag := 85, digest := [] } ++ ".bin")
          (exampleHandler.cacheModtime
            ([] ++ [Call.setContentDispositionHeader
              (exampleHandler.cidString { encodingTag := 85, digest := [] } ++ ".bin")
              "attachment"])
            { Method := "GET", URL := "/ipfs/bafkqaaa?format=raw", Header := [] }
            { path := "/ipfs/bafkqaaa" } { encodingTag := 85, digest := [] })
          (bytesNewReader [104, 105])] :=
  serveRawBlock_success_headers exampleHandler { id := 0 } []
    { Method := "GET", URL := "/ipfs/bafkqaaa?format=raw", Header := [] }
    { path := "/ipfs/bafkqaaa", Cid := { encodingTag := 85, digest := [] } }
    { path := "/ipfs/bafkqaaa" } 0 { data := [104, 105], err := none } [104, 105]
    rfl rfl

/-! ## The claims on `init` of `core/commands/root.go` -/

/-- C7: after `init`, `RootRO` is `Root` with another `Subcommands`: the two
structs agree in every other field (the processed `Helptext`, the `Options`
and the rest, which are those of the literal of `Root` after `ProcessHelp`);
the `Subcommands` of `RootRO` are the table `rootROSubcommands` (its literal,
and the read-only version command under "version"), those of `Root` are the
table `rootSubcommands` (its literal); and the assignment to
`RootRO.Subcommands` changes neither the struct of `Root` nor any map. -/
theorem rootRO_is_readonly_root (L : Library) :
    (packageInit L).cmd CmdPtr.RootRO =
      { (packageInit L).cmd CmdPtr.Root with Subcommands := some MapRef.rootROSubcommands } ∧
    ((packageInit L).cmd CmdPtr.RootRO).Helptext = (L.ProcessHelp (RootLiteral L)).Helptext ∧
    ((packageInit L).cmd CmdPtr.Root).Helptext = (L.ProcessHelp (RootLiteral L)).Helptext ∧
    ((packageInit L).cmd CmdPtr.RootRO).Options = ((packageInit L).cmd CmdPtr.Root).Options ∧
    ((packageInit L).cmd CmdPtr.RootRO).others = ((packageInit L).cmd CmdPtr.Root).others ∧
    ((packageInit L).cmd CmdPtr.RootRO).Subcommands = some MapRef.rootROSubcommands ∧
    ((packageInit L).cmd CmdPtr.Root).Subcommands = some MapRef.rootSubcommands ∧
    (packageInit L).subcommandsOf CmdPtr.Root = some rootSubcommandsLiteral ∧
    (packageInit L).subcommandsOf CmdPtr.RootRO =
      some (fun key =>
        if key = "version" then some CmdPtr.VersionROCmd else rootROSubcommandsLiteral key) ∧
    (∀ (s : PackageState) (m : MapRef),
      (s.setSubcommands CmdPtr.RootRO m).cmd CmdPtr.Root = s.cmd CmdPtr.Root ∧
      (s.setSubcommands CmdPtr.RootRO m).subcommands = s.subcommands ∧
      (s.setSubcommands CmdPtr.RootRO m).subcommandsOf CmdPtr.Root =
        s.subcommandsOf CmdPtr.Root) := by
  refine ⟨rfl, rfl, rfl, rfl, rfl, rfl, rfl, rfl, rfl, ?_⟩
  intro s m
  exact ⟨rfl, rfl, rfl⟩

/-- C8: after `init`, `VersionROCmd` is `VersionCmd` with another
`Subcommands`: the two structs agree in every other field, and the
`Subcommands` of `VersionROCmd` are an empty map; `rootROSubcommands["version"]`
is `VersionROCmd` and `rootSubcommands["version"]` is `VersionCmd`; and the
struct of `VersionCmd` and the content of its `Subcommands` are what they were
before `init`, and before the sanitising. -/
theorem versionRO_is_version_without_deps (L : Library) :
    (packageInit L).cmd CmdPtr.VersionROCmd =
      { (packageInit L).cmd CmdPtr.VersionCmd with
        Subcommands := some MapRef.versionROSubcommands } ∧
    ((packageInit L).cmd CmdPtr.VersionROCmd).Options =
      ((packageInit L).cmd CmdPtr.VersionCmd).Options ∧
    ((packageInit L).cmd CmdPtr.VersionROCmd).Helptext =
      ((packageInit L).cmd CmdPtr.VersionCmd).Helptext ∧
    ((packageInit L).cmd CmdPtr.VersionROCmd).others =
      ((packageInit L).cmd CmdPtr.VersionCmd).others ∧
    (packageInit L).subcommandsOf CmdPtr.VersionROCmd = some (fun _ => none) ∧
    (packageInit L).subcommands MapRef.rootROSubcommands "version" = some CmdPtr.VersionROCmd ∧
    (packageInit L).subcommands MapRef.rootSubcommands "version" = some CmdPtr.VersionCmd ∧
    (packageInit L).cmd CmdPtr.VersionCmd = (packageVars L).cmd CmdPtr.VersionCmd ∧
    (packageInit L).subcommandsOf CmdPtr.VersionCmd =
      (packageVars L).subcommandsOf CmdPtr.VersionCmd ∧
    (sanitizeVersion (initRoot L (packageVars L))).cmd CmdPtr.VersionCmd =
      (initRoot L (packageVars L)).cmd CmdPtr.VersionCmd ∧
    (sanitizeVersion (initRoot L (packageVars L))).subcommandsOf CmdPtr.VersionCmd =
      (initRoot L (packageVars L)).subcommandsOf CmdPtr.VersionCmd := by
  have hsub : ∀ s : PackageState,
      (∀ n, s.subcommands (MapRef.defined n) = L.subcommands n) →
      s.cmd CmdPtr.VersionCmd = (L.command CmdPtr.VersionCmd).toCommand →
      s.subcommandsOf CmdPtr.VersionCmd =
        (L.command CmdPtr.VersionCmd).Subcommands.map L.subcommands := by
    intro s hm hc
    unfold PackageState.subcommandsOf
    rw [hc]
    cases h : (L.command CmdPtr.VersionCmd).Subcommands with
    | none => simp [DefinedCommand.toCommand, h]
    | some n => simp [DefinedCommand.toCommand, h, hm]
  refine ⟨rfl, rfl, rfl, rfl, rfl, rfl, rfl, rfl, ?_, rfl, ?_⟩
  · rw [hsub (packageInit L) (fun n => rfl) rfl, hsub (packageVars L) (fun n => rfl) rfl]
  · rw [hsub (sanitizeVersion (initRoot L (packageVars L))) (fun n => rfl) rfl,
      hsub (initRoot L (packageVars L)) (fun n => rfl) rfl]

/-- A run of `init` with the example library: the read-only version command has
no subcommand `deps`, the version command still has it, and the read-only root
reaches the read-only version command. -/
theorem packageInit_example :
    ((packageInit exampleLibrary).subcommandsOf CmdPtr.VersionROCmd).map (fun m => m "deps") =
      some none ∧
    ((packageInit exampleLibrary).subcommandsOf CmdPtr.VersionCmd).map (fun m => m "deps") =
      some (some (CmdPtr.reached 0)) ∧
    ((packageInit exampleLibrary).subcommandsOf CmdPtr.RootRO).map (fun m => m "version") =
      some (some CmdPtr.VersionROCmd) ∧
    ((packageInit exampleLibrary).subcommandsOf CmdPtr.Root).map (fun m => m "version") =
      some (some CmdPtr.VersionCmd) ∧
    ((packageInit exampleLibrary).subcommandsOf CmdPtr.RootRO).map (fun m => m "swarm") =
      some none := by
  refine ⟨rfl, ?_, rfl, ?_, ?_⟩ <;> decide

end Web3comm
